import Mathlib

/-!
# Verification of the bouldy todo core (`src-tauri/src/todos.rs`)

A shallow embedding of the todo codec, the archive/streak engine and the
file-level operations of the bouldy repository, together with theorems
settling the frozen claims about them.

Strings are modelled as `List Char` (`Str`).  The Rust code only ever
manipulates ASCII todo text, where Rust's byte indexing coincides with
character indexing, and Rust's Unicode `char::is_whitespace` coincides with
`Char.isWhitespace` on the characters that occur.  File-system state is
modelled explicitly as a record of file contents; reads can fail
(`FileState.unreadable`), writes are modelled as always succeeding, and JSON
(de)serialization of the metadata file is modelled structurally with an
explicit corrupt state.
-/

namespace Bouldy

/-- Rust `&str` modelled at character level. -/
abbrev Str := List Char

/-! ## Character/string primitives mirroring the Rust `str` methods used -/

/-- Rust `str::trim_start` (drop leading whitespace). -/
def trimStart (s : Str) : Str := s.dropWhile Char.isWhitespace

/-- Rust `str::trim_end` (drop trailing whitespace). -/
def trimEnd (s : Str) : Str := (s.reverse.dropWhile Char.isWhitespace).reverse

/-- Rust `str::trim`. -/
def rustTrim (s : Str) : Str := trimEnd (trimStart s)

/-- Rust `str::starts_with(c)` for a single character. -/
def startsWithChar (c : Char) (s : Str) : Bool :=
  match s with
  | [] => false
  | a :: _ => a = c

/-- Accumulator core of `str::split_whitespace`: words are maximal runs of
non-whitespace characters; no empty words are produced. -/
def splitWsGo (cur : Str) : Str → List Str
  | [] => if cur = [] then [] else [cur.reverse]
  | c :: cs =>
    if c.isWhitespace then
      if cur = [] then splitWsGo [] cs else cur.reverse :: splitWsGo [] cs
    else
      splitWsGo (c :: cur) cs

/-- Rust `str::split_whitespace` collected to a list. -/
def splitWhitespace (s : Str) : List Str := splitWsGo [] s

/-- `Vec<&str>::join(" ")` on words. -/
def joinSpace (ws : List Str) : Str := List.intercalate [' '] ws

/-- Strip one trailing `'\r'` from a line, as Rust `str::lines` does.
The argument is the line accumulated in reverse. -/
def finishLine (cur : Str) : Str :=
  if cur.head? = some '\r' then cur.tail.reverse else cur.reverse

/-- Accumulator core of Rust `str::lines`: split on `'\n'` with terminator
semantics (a final trailing newline produces no extra empty line), stripping
one trailing `'\r'` per line. -/
def linesGo (cur : Str) : Str → List Str
  | [] => [finishLine cur]
  | [c] => if c = '\n' then [finishLine cur] else [finishLine (c :: cur)]
  | c :: rest =>
    if c = '\n' then finishLine cur :: linesGo [] rest
    else linesGo (c :: cur) rest

/-- Rust `str::lines` collected to a list (`"".lines()` is empty). -/
def rustLines (s : Str) : List Str :=
  match s with
  | [] => []
  | _ => linesGo [] s

/-- Fuel-driven core of Rust `str::replace(pat, rep)`: replace non-overlapping
occurrences of `pat` left to right.  The fuel is the length of the scanned
string; it is consumed at least one character per step, so `replaceFuel
s.length pat rep s` never exhausts it (the `0` case is unreachable for that
call, see `replaceFuel_fuel_irrel`-style reasoning where needed). -/
def replaceFuel (pat rep : Str) : Nat → Str → Str
  | 0, s => s
  | _ + 1, [] => []
  | f + 1, c :: cs =>
    if pat ≠ [] ∧ pat.isPrefixOf (c :: cs) then
      rep ++ replaceFuel pat rep f ((c :: cs).drop pat.length)
    else
      c :: replaceFuel pat rep f cs

/-- Rust `str::replace(pat, rep)` (the source only ever replaces by `""`).
Rust's behaviour for an empty pattern (inserting `rep` at every boundary) is
never exercised by the source and is modelled as the identity. -/
def replaceStr (pat rep s : Str) : Str := replaceFuel pat rep s.length s

/-- Rust `char::is_ascii_uppercase`. -/
def isAsciiUpper (c : Char) : Bool := 'A' ≤ c ∧ c ≤ 'Z'

/-- Rust `char::is_ascii_digit`. -/
def isAsciiDigit (c : Char) : Bool := '0' ≤ c ∧ c ≤ '9'

/-! ## The data model (`todos.rs` lines 6–55) -/

/-- `TodoItem` (todos.rs lines 6–18). `id` is the 1-indexed line number. -/
structure TodoItem where
  id : Nat
  title : Str
  completed : Bool
  due_date : Option Str
  priority : Option Str
  projects : List Str
  contexts : List Str
  created_date : Option Str
deriving DecidableEq, Repr

/-- `TodoStats` (todos.rs lines 20–32).  The two `HashMap<String, usize>`
fields are modelled as association lists; the source only ever uses
`contains_key`, `entry(..).or_insert(0) += n` and `is_empty`, none of which
observe iteration order. -/
structure TodoStats where
  total_completed : Nat
  current_streak : Nat
  longest_streak : Nat
  completions_by_month : List (Str × Nat)
  completions_by_day : List (Str × Nat)
deriving DecidableEq, Repr

/-- `TodoStats::default()`. -/
def TodoStats.default : TodoStats := ⟨0, 0, 0, [], []⟩

/-- `TodoMetadata` (todos.rs lines 34–48). -/
structure TodoMetadata where
  daily_limit : Nat
  stats : TodoStats
deriving DecidableEq, Repr

/-- `TodoMetadata::default()` (todos.rs lines 41–48): daily limit 5. -/
def TodoMetadata.default : TodoMetadata := ⟨5, TodoStats.default⟩

/-- `ArchivedTodo` (todos.rs lines 50–55): title and completion date only —
this implementation has no subtask field. -/
structure ArchivedTodo where
  title : Str
  completed_date : Str
deriving DecidableEq, Repr

/-! ## The todo codec (`todos.rs` lines 57–255) -/

/-- `extract_due_date` (todos.rs lines 144–153): the first
whitespace-separated word starting with `"due:"`, minus that prefix. -/
def extract_due_date (content : Str) : Option Str :=
  (splitWhitespace content).findSome? fun word =>
    if ['d', 'u', 'e', ':'].isPrefixOf word then some (word.drop 4) else none

/-- `extract_priority` (todos.rs lines 155–169): a single ASCII-uppercase
letter in parentheses at the very start of the trimmed line (the first `')'`
of the line must sit at index 2). -/
def extract_priority (content : Str) : Option Str :=
  let trimmed := rustTrim content
  if startsWithChar '(' trimmed ∧ 2 < trimmed.length then
    match trimmed.findIdx? (fun c => c = ')') with
    | some 2 =>
      match trimmed.get? 1 with
      | some p => if isAsciiUpper p then some [p] else none
      | none => none
    | _ => none
  else
    none

/-- `extract_projects` (todos.rs lines 171–183): every word starting with
`'+'` of length > 1, minus the marker. -/
def extract_projects (content : Str) : List Str :=
  (splitWhitespace content).filterMap fun word =>
    if startsWithChar '+' word ∧ 1 < word.length then some (word.drop 1) else none

/-- `extract_contexts` (todos.rs lines 185–197): every word starting with
`'@'` of length > 1, minus the marker. -/
def extract_contexts (content : Str) : List Str :=
  (splitWhitespace content).filterMap fun word =>
    if startsWithChar '@' word ∧ 1 < word.length then some (word.drop 1) else none

/-- Fixed-window match for the regex `\d{4}-\d{2}-\d{2}` at the head of `s`. -/
def dateWindow (s : Str) : Bool :=
  match s with
  | a :: b :: c :: d :: e :: f :: g :: h :: i :: j :: _ =>
    isAsciiDigit a ∧ isAsciiDigit b ∧ isAsciiDigit c ∧ isAsciiDigit d ∧
    e = '-' ∧ isAsciiDigit f ∧ isAsciiDigit g ∧ h = '-' ∧
    isAsciiDigit i ∧ isAsciiDigit j
  | _ => false

/-- `extract_created_date` (todos.rs lines 199–208): the leftmost match of
the regex `\d{4}-\d{2}-\d{2}` in the line.  The pattern has fixed width 10,
so the leftmost regex match is the first position where the window matches. -/
def extract_created_date : Str → Option Str
  | [] => none
  | c :: cs =>
    if dateWindow (c :: cs) then some ((c :: cs).take 10)
    else extract_created_date cs

/-- `parse_todo_line` (todos.rs lines 82–142).  The Rust function's
`Result` is always `Ok`, so the model returns the item directly. -/
def parse_todo_line (line : Str) (line_num : Nat) : TodoItem :=
  let content := line
  -- 1. completion marker
  let completed := startsWithChar 'x' (trimStart content)
  let content := if completed then trimStart ((trimStart content).drop 1) else content
  -- 2. priority (must be at start after 'x')
  let priority := extract_priority content
  let content :=
    match priority with
    | some p => rustTrim (replaceStr ('(' :: p ++ [')']) [] content)
    | none => content
  -- 3. creation date (first date after priority removed)
  let created_date := extract_created_date content
  -- 4. metadata tags
  let due_date := extract_due_date content
  let projects := extract_projects content
  let contexts := extract_contexts content
  -- 5. clean title: remove all metadata, then collapse whitespace
  let title := content
  let title :=
    match due_date with
    | some due => replaceStr (['d', 'u', 'e', ':'] ++ due) [] title
    | none => title
  let title :=
    match created_date with
    | some created => replaceStr created [] title
    | none => title
  let title := projects.foldl (fun t project => replaceStr ('+' :: project) [] t) title
  let title := contexts.foldl (fun t context => replaceStr ('@' :: context) [] t) title
  let title := joinSpace (splitWhitespace title)
  { id := line_num, title := title, completed := completed,
    due_date := due_date, priority := priority,
    projects := projects, contexts := contexts, created_date := created_date }

/-- Loop body of `parse_todos` (todos.rs lines 63–77): `n` is the number of
lines already consumed; blank lines are skipped but still counted. -/
def parse_todosGo (n : Nat) : List Str → List TodoItem
  | [] => []
  | line :: rest =>
    if rustTrim line = [] then parse_todosGo (n + 1) rest
    else parse_todo_line (rustTrim line) (n + 1) :: parse_todosGo (n + 1) rest

/-- `parse_todos` (todos.rs lines 57–80). -/
def parse_todos (content : Str) : Except Str (List TodoItem) :=
  if rustTrim content = [] then .ok []
  else .ok (parse_todosGo 0 (rustLines content))

/-- `serialize_todos` (todos.rs lines 210–255): the imperative loop pushing
parts and joining them with single spaces, one line per item. -/
def serialize_todos (todos : List TodoItem) : Str :=
  todos.foldl
    (fun result todo =>
      let parts : List Str := []
      -- 1. completion marker
      let parts := if todo.completed then parts ++ [['x']] else parts
      -- 2. priority
      let parts :=
        match todo.priority with
        | some priority => parts ++ ['(' :: priority ++ [')']]
        | none => parts
      -- 3. creation date
      let parts :=
        match todo.created_date with
        | some created => parts ++ [created]
        | none => parts
      -- 4. task description
      let parts := parts ++ [todo.title]
      -- 5. project tags
      let parts := parts ++ todo.projects.map (fun project => '+' :: project)
      -- 6. context tags
      let parts := parts ++ todo.contexts.map (fun context => '@' :: context)
      -- 7. due date (extension)
      let parts :=
        match todo.due_date with
        | some due => parts ++ [['d', 'u', 'e', ':'] ++ due]
        | none => parts
      result ++ List.intercalate [' '] parts ++ ['\n'])
    []

/-! ## Decimal formatting and parsing (Rust `format!("{:0w}")` and
`str::parse::<i32>()`), needed by `calculate_streak` -/

/-- Little-endian decimal digits of `n`; the fuel argument is consumed one
unit per digit, and `natDigitsFuel n n` never exhausts it. -/
def natDigitsFuel : Nat → Nat → List Nat
  | 0, _ => []
  | f + 1, n => if n = 0 then [] else n % 10 :: natDigitsFuel f (n / 10)

/-- The ASCII character of a decimal digit. -/
def digitChar : Nat → Char
  | 0 => '0' | 1 => '1' | 2 => '2' | 3 => '3' | 4 => '4'
  | 5 => '5' | 6 => '6' | 7 => '7' | 8 => '8' | _ => '9'

/-- Decimal rendering of a natural number, as Rust `Display` for integers. -/
def natToChars (n : Nat) : Str :=
  if n = 0 then ['0'] else (natDigitsFuel n n).reverse.map digitChar

/-- Zero-pad on the left to width `w`. -/
def padZeros (w : Nat) (s : Str) : Str := List.replicate (w - s.length) '0' ++ s

/-- Rust `format!("{:0w}", n)` for an `i32`: zero-padded to total width `w`,
the sign (if negative) counted in the width. -/
def fmtI32 (w : Nat) (n : Int) : Str :=
  if n < 0 then '-' :: padZeros (w - 1) (natToChars n.natAbs)
  else padZeros w (natToChars n.toNat)

/-- Rust `format!("{:04}-{:02}-{:02}", y, m, d)` (todos.rs line 363 and the
`prev_day` strings of lines 390–396). -/
def fmtDate (y m d : Int) : Str :=
  fmtI32 4 y ++ '-' :: (fmtI32 2 m ++ '-' :: fmtI32 2 d)

/-- Accumulator pass of decimal parsing over ASCII digit characters. -/
def parseNatAcc (acc : Nat) : Str → Nat
  | [] => acc
  | c :: cs => parseNatAcc (acc * 10 + (c.toNat - 48)) cs

/-- Digits-and-bounds part of Rust `str::parse::<i32>()`: at least one
digit, all digits, and the value within `i32` range (overflow is `Err`). -/
def parseI32Core (neg : Bool) (digs : Str) : Option Int :=
  if digs = [] ∨ ¬ digs.all isAsciiDigit then none
  else
    let v := parseNatAcc 0 digs
    match neg with
    | true => if v ≤ 2 ^ 31 then some (-(v : Int)) else none
    | false => if v ≤ 2 ^ 31 - 1 then some (v : Int) else none

/-- Rust `str::parse::<i32>()`: optional sign, then digits. -/
def parseI32 : Str → Option Int
  | '-' :: rest => parseI32Core true rest
  | '+' :: rest => parseI32Core false rest
  | s => parseI32Core false s

lemma natDigitsFuel_eq_digits : ∀ f n : Nat, n ≤ f → natDigitsFuel f n = Nat.digits 10 n := by
  intro f
  induction f with
  | zero => intro n hn; interval_cases n; simp [natDigitsFuel]
  | succ f ih =>
    intro n hn
    by_cases h0 : n = 0
    · simp [natDigitsFuel, h0]
    · rw [natDigitsFuel, if_neg h0,
        Nat.digits_def' (b := 10) (by norm_num) (Nat.pos_of_ne_zero h0),
        ih (n / 10) ?_]
      have : n / 10 < n := Nat.div_lt_self (Nat.pos_of_ne_zero h0) (by norm_num)
      omega

lemma digitChar_toNat {d : Nat} (hd : d < 10) : (digitChar d).toNat = 48 + d := by
  interval_cases d <;> rfl

lemma isAsciiDigit_digitChar (d : Nat) : isAsciiDigit (digitChar d) = true := by
  unfold digitChar
  split <;> rfl

lemma parseNatAcc_map_digitChar :
    ∀ ds : List Nat, (∀ d ∈ ds, d < 10) → ∀ acc : Nat,
      parseNatAcc acc (ds.map digitChar) =
        acc * 10 ^ ds.length + Nat.ofDigits 10 ds.reverse := by
  intro ds
  induction ds with
  | nil =>
    intro _ acc
    rw [List.map_nil, show parseNatAcc acc [] = acc from rfl, List.reverse_nil,
      Nat.ofDigits_nil, List.length_nil, pow_zero, mul_one, add_zero]
  | cons d t ih =>
    intro h acc
    have hd : d < 10 := h d (by simp)
    have ht : ∀ x ∈ t, x < 10 := fun x hx => h x (by simp [hx])
    rw [List.map_cons]
    show parseNatAcc (acc * 10 + ((digitChar d).toNat - 48)) (t.map digitChar) = _
    rw [digitChar_toNat hd, show 48 + d - 48 = d by omega, ih ht,
      List.reverse_cons, Nat.ofDigits_append, List.length_reverse,
      Nat.ofDigits_singleton, List.length_cons]
    ring

lemma parseNatAcc_natToChars (n : Nat) : parseNatAcc 0 (natToChars n) = n := by
  by_cases h0 : n = 0
  · subst h0; rfl
  · have hds : natDigitsFuel n n = Nat.digits 10 n := natDigitsFuel_eq_digits n n le_rfl
    have hlt : ∀ d ∈ (Nat.digits 10 n).reverse, d < 10 := by
      intro d hd
      exact Nat.digits_lt_base (by norm_num) (List.mem_reverse.mp hd)
    rw [natToChars, if_neg h0, hds, parseNatAcc_map_digitChar _ hlt 0,
      List.reverse_reverse, Nat.ofDigits_digits, zero_mul, zero_add]

lemma parseNatAcc_replicate_zero :
    ∀ k : Nat, ∀ s : Str, parseNatAcc 0 (List.replicate k '0' ++ s) = parseNatAcc 0 s := by
  intro k
  induction k with
  | zero => intro s; rfl
  | succ k ih =>
    intro s
    rw [List.replicate_succ, List.cons_append]
    exact ih s

lemma natToChars_all_digits (n : Nat) : (natToChars n).all isAsciiDigit = true := by
  by_cases h0 : n = 0
  · subst h0; rfl
  · rw [natToChars, if_neg h0]
    simp only [List.all_eq_true, List.mem_map, List.mem_reverse]
    rintro c ⟨d, _, rfl⟩
    exact isAsciiDigit_digitChar d

lemma natToChars_ne_nil (n : Nat) : natToChars n ≠ [] := by
  by_cases h0 : n = 0
  · subst h0; simp [natToChars]
  · rw [natToChars, if_neg h0, natDigitsFuel_eq_digits n n le_rfl]
    simp [Nat.digits_ne_nil_iff_ne_zero, h0]

lemma padZeros_all_digits {w : Nat} {s : Str} (hs : s.all isAsciiDigit = true) :
    (padZeros w s).all isAsciiDigit = true := by
  simp only [padZeros, List.all_append, Bool.and_eq_true, hs, and_true]
  simp only [List.all_eq_true]
  intro c hc
  rw [List.eq_of_mem_replicate hc]
  rfl

lemma padZeros_ne_nil {w : Nat} {s : Str} (hs : s ≠ []) : padZeros w s ≠ [] := by
  simp [padZeros, hs]

lemma isAsciiDigit_ne_dash {c : Char} (h : isAsciiDigit c = true) : c ≠ '-' := by
  rintro rfl
  exact absurd h (by decide)

lemma isAsciiDigit_ne_plus {c : Char} (h : isAsciiDigit c = true) : c ≠ '+' := by
  rintro rfl
  exact absurd h (by decide)

lemma parseI32_all_digits {s : Str} (hne : s ≠ []) (hd : s.all isAsciiDigit = true) :
    parseI32 s = parseI32Core false s := by
  match s with
  | [] => exact absurd rfl hne
  | c :: cs =>
    have hc : isAsciiDigit c = true := by
      simp only [List.all_cons, Bool.and_eq_true] at hd; exact hd.1
    rw [parseI32.eq_def]
    split
    · rename_i heq; cases heq; exact absurd rfl (isAsciiDigit_ne_dash hc)
    · rename_i heq; cases heq; exact absurd rfl (isAsciiDigit_ne_plus hc)
    · rfl

lemma parseI32Core_pad (w : Nat) (n : Nat) (h : n ≤ 2 ^ 31 - 1) :
    parseI32Core false (padZeros w (natToChars n)) = some (n : Int) := by
  have hne : padZeros w (natToChars n) ≠ [] := padZeros_ne_nil (natToChars_ne_nil n)
  have hdig : (padZeros w (natToChars n)).all isAsciiDigit = true :=
    padZeros_all_digits (natToChars_all_digits n)
  have hval : parseNatAcc 0 (padZeros w (natToChars n)) = n := by
    rw [padZeros, parseNatAcc_replicate_zero, parseNatAcc_natToChars]
  rw [parseI32Core, if_neg (by simp [hne, hdig])]
  show (if parseNatAcc 0 (padZeros w (natToChars n)) ≤ 2 ^ 31 - 1
      then some ((parseNatAcc 0 (padZeros w (natToChars n)) : Int)) else none) = some (n : Int)
  rw [hval, if_pos h]

lemma parseI32_fmtI32 (w : Nat) (n : Int) (h0 : 0 ≤ n) (h : n ≤ 2 ^ 31 - 1) :
    parseI32 (fmtI32 w n) = some n := by
  have hfmt : fmtI32 w n = padZeros w (natToChars n.toNat) := by
    rw [fmtI32, if_neg (by omega)]
  have hn : n.toNat ≤ 2 ^ 31 - 1 := by omega
  rw [hfmt, parseI32_all_digits (padZeros_ne_nil (natToChars_ne_nil _))
    (padZeros_all_digits (natToChars_all_digits _)), parseI32Core_pad w n.toNat hn]
  congr 1
  omega

/-! ## `str::split('-')` and the date triple of `calculate_streak` -/

/-- Accumulator core of Rust `str::split('-')` (empty segments included). -/
def splitOnDashGo (cur : Str) : Str → List Str
  | [] => [cur.reverse]
  | c :: cs =>
    if c = '-' then cur.reverse :: splitOnDashGo [] cs
    else splitOnDashGo (c :: cur) cs

/-- Rust `current_date.split('-').collect::<Vec<_>>()` (todos.rs line 384). -/
def splitOnDash (s : Str) : List Str := splitOnDashGo [] s

/-- The `(parts[0].parse, parts[1].parse, parts[2].parse)` pipeline of
`calculate_streak` (todos.rs lines 384–389), with out-of-range indexing or a
parse failure collapsed to `none`. -/
def extractTriple (s : Str) : Option (Int × Int × Int) :=
  match (splitOnDash s).get? 0, (splitOnDash s).get? 1, (splitOnDash s).get? 2 with
  | some p0, some p1, some p2 =>
    match parseI32 p0, parseI32 p1, parseI32 p2 with
    | some y, some m, some d => some (y, m, d)
    | _, _, _ => none
  | _, _, _ => none

/-- Termination measure for the backward date walk: the walk strictly
decreases the parsed `(year, month, day)` triple lexicographically, and each
parsed component is a non-negative `i32`, so this packed value decreases. -/
def dateMeasure (s : Str) : Nat :=
  match extractTriple s with
  | some (y, m, d) => y.toNat * 2 ^ 64 + m.toNat * 2 ^ 32 + d.toNat + 1
  | none => 0

lemma splitOnDashGo_no_dash :
    ∀ a : Str, '-' ∉ a → ∀ cur : Str, splitOnDashGo cur a = [cur.reverse ++ a] := by
  intro a
  induction a with
  | nil => intro _ cur; simp [splitOnDashGo]
  | cons c t ih =>
    intro h cur
    have hc : c ≠ '-' := by intro hc; exact h (by simp [hc])
    have ht : '-' ∉ t := by intro hm; exact h (by simp [hm])
    rw [splitOnDashGo, if_neg hc, ih ht]
    simp

lemma splitOnDashGo_append :
    ∀ a : Str, '-' ∉ a → ∀ cur rest : Str,
      splitOnDashGo cur (a ++ '-' :: rest) =
        (cur.reverse ++ a) :: splitOnDashGo [] rest := by
  intro a
  induction a with
  | nil => intro _ cur rest; simp [splitOnDashGo]
  | cons c t ih =>
    intro h cur rest
    have hc : c ≠ '-' := by intro hc; exact h (by simp [hc])
    have ht : '-' ∉ t := by intro hm; exact h (by simp [hm])
    rw [List.cons_append, splitOnDashGo, if_neg hc, ih ht]
    simp

lemma all_digits_no_dash {s : Str} (h : s.all isAsciiDigit = true) : '-' ∉ s := by
  intro hm
  simp only [List.all_eq_true] at h
  exact absurd (h '-' hm) (by decide)

lemma fmtI32_no_dash {w : Nat} {n : Int} (h0 : 0 ≤ n) : '-' ∉ fmtI32 w n := by
  rw [fmtI32, if_neg (by omega)]
  exact all_digits_no_dash (padZeros_all_digits (natToChars_all_digits _))

lemma splitOnDash_fmtDate {y m d : Int} (hy : 0 ≤ y) (hm : 0 ≤ m) (hd : 0 ≤ d) :
    splitOnDash (fmtDate y m d) = [fmtI32 4 y, fmtI32 2 m, fmtI32 2 d] := by
  rw [fmtDate, splitOnDash, splitOnDashGo_append _ (fmtI32_no_dash hy),
    splitOnDashGo_append _ (fmtI32_no_dash hm),
    splitOnDashGo_no_dash _ (fmtI32_no_dash hd)]
  simp

lemma extractTriple_fmtDate {y m d : Int} (hy0 : 0 ≤ y) (hm0 : 0 ≤ m) (hd0 : 0 ≤ d)
    (hy1 : y ≤ 2 ^ 31 - 1) (hm1 : m ≤ 2 ^ 31 - 1) (hd1 : d ≤ 2 ^ 31 - 1) :
    extractTriple (fmtDate y m d) = some (y, m, d) := by
  rw [extractTriple]
  simp only [splitOnDash_fmtDate hy0 hm0 hd0, List.get?]
  rw [parseI32_fmtI32 4 y hy0 hy1, parseI32_fmtI32 2 m hm0 hm1, parseI32_fmtI32 2 d hd0 hd1]

lemma dateMeasure_fmtDate {y m d : Int} (hy0 : 0 ≤ y) (hm0 : 0 ≤ m) (hd0 : 0 ≤ d)
    (hy1 : y ≤ 2 ^ 31 - 1) (hm1 : m ≤ 2 ^ 31 - 1) (hd1 : d ≤ 2 ^ 31 - 1) :
    dateMeasure (fmtDate y m d) =
      y.toNat * 2 ^ 64 + m.toNat * 2 ^ 32 + d.toNat + 1 := by
  rw [dateMeasure, extractTriple_fmtDate hy0 hm0 hd0 hy1 hm1 hd1]

lemma splitOnDashGo_mem_no_dash :
    ∀ cs cur : Str, '-' ∉ cur → ∀ p ∈ splitOnDashGo cur cs, '-' ∉ p := by
  intro cs
  induction cs with
  | nil =>
    intro cur hcur p hp
    simp only [splitOnDashGo, List.mem_singleton] at hp
    subst hp
    simpa using hcur
  | cons c t ih =>
    intro cur hcur p hp
    by_cases hc : c = '-'
    · rw [splitOnDashGo, if_pos hc] at hp
      rcases List.mem_cons.mp hp with h | h
      · subst h; simpa using hcur
      · exact ih [] (by simp) p h
    · rw [splitOnDashGo, if_neg hc] at hp
      exact ih (c :: cur) (by simp [hcur, Ne.symm hc]) p hp

lemma splitOnDash_mem_no_dash {s p : Str} (hp : p ∈ splitOnDash s) : '-' ∉ p :=
  splitOnDashGo_mem_no_dash s [] (by simp) p hp

/-- A segment produced by `split('-')` parses, if at all, to a non-negative
value in `i32` range. -/
lemma parseI32_no_dash_nonneg {p : Str} (hp : '-' ∉ p) {v : Int}
    (hv : parseI32 p = some v) : 0 ≤ v ∧ v ≤ 2 ^ 31 - 1 := by
  have core : ∀ s : Str, parseI32Core false s = some v → 0 ≤ v ∧ v ≤ 2 ^ 31 - 1 := by
    intro s hs
    rw [parseI32Core] at hs
    split at hs
    · exact absurd hs (by simp)
    · have hs' : (if parseNatAcc 0 s ≤ 2 ^ 31 - 1
          then some ((parseNatAcc 0 s : Int)) else none) = some v := hs
      split at hs'
      · rename_i hle
        cases hs'
        exact ⟨Int.ofNat_nonneg _, by omega⟩
      · exact absurd hs' (by simp)
  match p, hp with
  | [], _ => exact core [] hv
  | c :: cs, hp =>
    have hc : c ≠ '-' := fun h => hp (by simp [h])
    rw [parseI32.eq_def] at hv
    split at hv
    · rename_i heq; cases heq; exact absurd rfl hc
    · exact core _ hv
    · exact core _ hv

/-! ## `HashMap<String, usize>` as an association list -/

/-- `HashMap::get`: value of the first entry with the given key. -/
def mapGet (m : List (Str × Nat)) (k : Str) : Option Nat :=
  match m.find? (fun p => p.1 = k) with
  | some p => some p.2
  | none => none

/-- `HashMap::contains_key`. -/
def mapContains (m : List (Str × Nat)) (k : Str) : Bool :=
  (mapGet m k).isSome

/-- `HashMap::entry(k).or_insert(0) += v`. -/
def mapInsertAdd (m : List (Str × Nat)) (k : Str) (v : Nat) : List (Str × Nat) :=
  if mapContains m k then m.map (fun p => if p.1 = k then (p.1, p.2 + v) else p)
  else m ++ [(k, v)]

/-! ## `calculate_streak` (todos.rs lines 371–407) -/

lemma streak_measure_decreases {current : Str} {p0 p1 p2 : Str} {y m d : Int}
    (h0 : (splitOnDash current).get? 0 = some p0)
    (h1 : (splitOnDash current).get? 1 = some p1)
    (h2 : (splitOnDash current).get? 2 = some p2)
    (hy : parseI32 p0 = some y) (hm : parseI32 p1 = some m)
    (hd : parseI32 p2 = some d) :
    dateMeasure (if 1 < d then fmtDate y m (d - 1)
      else if 1 < m then fmtDate y (m - 1) 30 else fmtDate (y - 1) 12 30) <
      dateMeasure current := by
  have hcur : extractTriple current = some (y, m, d) := by
    simp only [extractTriple, h0, h1, h2, hy, hm, hd]
  have hyb := parseI32_no_dash_nonneg (splitOnDash_mem_no_dash (List.get?_mem h0)) hy
  have hmb := parseI32_no_dash_nonneg (splitOnDash_mem_no_dash (List.get?_mem h1)) hm
  have hdb := parseI32_no_dash_nonneg (splitOnDash_mem_no_dash (List.get?_mem h2)) hd
  have hmea : dateMeasure current = y.toNat * 2 ^ 64 + m.toNat * 2 ^ 32 + d.toNat + 1 := by
    rw [dateMeasure, hcur]
  split_ifs with hd1 hm1
  · rw [dateMeasure_fmtDate (by omega) (by omega) (by omega) (by omega) (by omega)
      (by omega), hmea]
    omega
  · rw [dateMeasure_fmtDate (by omega) (by omega) (by omega) (by omega) (by omega)
      (by omega), hmea]
    omega
  · by_cases hy1 : 1 ≤ y
    · rw [dateMeasure_fmtDate (by omega) (by omega) (by omega) (by omega) (by omega)
        (by omega), hmea]
      omega
    · have hy0 : y = 0 := by omega
      subst hy0
      have hzero : dateMeasure (fmtDate (0 - 1) 12 30) = 0 := by decide
      rw [hzero, hmea]
      omega

/-- Loop of `calculate_streak` (todos.rs lines 380–404): while the map
contains the current date, count it and step to the previous day, computed
with every month treated as 30 days.  A parse failure of the current date
exits the loop after counting (`some (streak + 1)`); out-of-bounds indexing
into the split (fewer than three `'-'`-separated parts) is a Rust panic,
modelled as `none`. -/
def calculate_streakGo (completions_by_day : List (Str × Nat)) (current_date : Str)
    (streak : Nat) : Option Nat :=
  if mapContains completions_by_day current_date then
    match h0 : (splitOnDash current_date).get? 0, h1 : (splitOnDash current_date).get? 1,
        h2 : (splitOnDash current_date).get? 2 with
    | some p0, some p1, some p2 =>
      match hy : parseI32 p0, hm : parseI32 p1, hd : parseI32 p2 with
      | some y, some m, some d =>
        let prev_day :=
          if 1 < d then fmtDate y m (d - 1)
          else if 1 < m then fmtDate y (m - 1) 30
          else fmtDate (y - 1) 12 30
        calculate_streakGo completions_by_day prev_day (streak + 1)
      | _, _, _ => some (streak + 1)
    | _, _, _ => none
  else some streak
termination_by dateMeasure current_date
decreasing_by exact streak_measure_decreases h0 h1 h2 hy hm hd

/-- `calculate_streak` (todos.rs lines 371–407), with "today" passed
explicitly in place of the impure `get_current_date()`. -/
def calculate_streak (completions_by_day : List (Str × Nat)) (today : Str) : Option Nat :=
  if completions_by_day = [] then some 0
  else calculate_streakGo completions_by_day today 0

/-- The streak walk as the spec states it: starting from a `(y, m, d)`
triple, count a day while the completions-by-day map has a non-zero entry
for it and step to the previous day, the predecessor of day 1 of a month
being day 30 of the previous month (months fixed at 30 days).  The `1 ≤ y`
guard stops the walk at the year-0 boundary, where the Rust code's
`format!`/`parse` round trip fails and its loop breaks after counting. -/
def hasNonzeroEntry (m : List (Str × Nat)) (k : Str) : Bool :=
  match mapGet m k with
  | some v => v ≠ 0
  | none => false

/-- Spec-level streak walk (see `hasNonzeroEntry` above for the reading). -/
def streakSpec (completions_by_day : List (Str × Nat)) (y m d : Nat) : Nat :=
  if hasNonzeroEntry completions_by_day (fmtDate (y : Int) (m : Int) (d : Int)) then
    if 1 < d then 1 + streakSpec completions_by_day y m (d - 1)
    else if 1 < m then 1 + streakSpec completions_by_day y (m - 1) 30
    else if 1 ≤ y then 1 + streakSpec completions_by_day (y - 1) 12 30
    else 1
  else 0
termination_by y * 2 ^ 64 + m * 2 ^ 32 + d
decreasing_by all_goals omega

lemma hasNonzeroEntry_eq_mapContains (cbd : List (Str × Nat))
    (hvals : ∀ p ∈ cbd, p.2 ≠ 0) (k : Str) :
    hasNonzeroEntry cbd k = mapContains cbd k := by
  rw [hasNonzeroEntry, mapContains, mapGet]
  cases hfind : cbd.find? (fun p => p.1 = k) with
  | none => rfl
  | some p =>
    have hp : p ∈ cbd := List.mem_of_find?_eq_some hfind
    simp [hvals p hp]

lemma mapContains_eq_false_of_head_dash (cbd : List (Str × Nat))
    (hkeys : ∀ p ∈ cbd, p.1.head? ≠ some '-') {k : Str}
    (hk : k.head? = some '-') : mapContains cbd k = false := by
  rw [mapContains, mapGet]
  cases hfind : cbd.find? (fun p => p.1 = k) with
  | none => rfl
  | some p =>
    have hp : p ∈ cbd := List.mem_of_find?_eq_some hfind
    have hpk : p.1 = k := by
      have := List.find?_some hfind
      simpa using this
    exact absurd (hpk ▸ hk) (hkeys p hp)

lemma calculate_streakGo_not_contains (cbd : List (Str × Nat)) (k : Str) (acc : Nat)
    (hc : mapContains cbd k = false) : calculate_streakGo cbd k acc = some acc := by
  rw [calculate_streakGo.eq_def, hc]
  simp

/-- `fmtDate` of non-negative components starts with a digit, never `'-'`. -/
lemma fmtDate_head_no_dash {y m d : Int} (hy : 0 ≤ y) :
    (fmtDate y m d).head? ≠ some '-' := by
  rw [fmtDate, fmtI32, if_neg (by omega)]
  rcases hpz : padZeros 4 (natToChars y.toNat) with _ | ⟨c, cs⟩
  · exact absurd hpz (padZeros_ne_nil (natToChars_ne_nil _))
  · have hdig : isAsciiDigit c = true := by
      have := padZeros_all_digits (w := 4) (natToChars_all_digits y.toNat)
      rw [hpz] at this
      simp only [List.all_cons, Bool.and_eq_true] at this
      exact this.1
    simp only [List.cons_append, List.head?_cons, ne_eq, Option.some_inj]
    exact isAsciiDigit_ne_dash hdig

/-- The Rust streak loop computes exactly the spec-level walk, for maps whose
values are non-zero (the spec's "non-zero entry") and whose keys do not start
with `'-'` (true of all date keys), starting from any `(y, m, d)` within
`i32` range. -/
theorem calculate_streakGo_eq_spec :
    ∀ N (cbd : List (Str × Nat)) (y m d : Nat),
      y * 2 ^ 64 + m * 2 ^ 32 + d ≤ N →
      y ≤ 2 ^ 31 - 1 → m ≤ 2 ^ 31 - 1 → d ≤ 2 ^ 31 - 1 →
      (∀ p ∈ cbd, p.2 ≠ 0) → (∀ p ∈ cbd, p.1.head? ≠ some '-') →
      ∀ acc, calculate_streakGo cbd (fmtDate (y : Int) (m : Int) (d : Int)) acc =
        some (acc + streakSpec cbd y m d) := by
  intro N
  induction N using Nat.strong_induction_on with
  | _ N ih =>
    intro cbd y m d hN hy hm hd hvals hkeys acc
    have hy0 : (0 : Int) ≤ (y : Int) := Int.ofNat_nonneg y
    have hm0 : (0 : Int) ≤ (m : Int) := Int.ofNat_nonneg m
    have hd0 : (0 : Int) ≤ (d : Int) := Int.ofNat_nonneg d
    have hy1 : (y : Int) ≤ 2 ^ 31 - 1 := by omega
    have hm1 : (m : Int) ≤ 2 ^ 31 - 1 := by omega
    have hd1 : (d : Int) ≤ 2 ^ 31 - 1 := by omega
    have hnz := hasNonzeroEntry_eq_mapContains cbd hvals
      (fmtDate (y : Int) (m : Int) (d : Int))
    by_cases hc : mapContains cbd (fmtDate (y : Int) (m : Int) (d : Int)) = true
    · rw [calculate_streakGo.eq_def, if_pos hc]
      rw [streakSpec, hnz, if_pos hc]
      split
      · rename_i p0 p1 p2 h0 h1 h2
        rw [splitOnDash_fmtDate hy0 hm0 hd0] at h0 h1 h2
        simp only [List.get?] at h0 h1 h2
        cases h0
        cases h1
        cases h2
        split
        · rename_i yv mv dv hyv hmv hdv
          rw [parseI32_fmtI32 4 _ hy0 hy1] at hyv
          rw [parseI32_fmtI32 2 _ hm0 hm1] at hmv
          rw [parseI32_fmtI32 2 _ hd0 hd1] at hdv
          cases hyv
          cases hmv
          cases hdv
          by_cases hdgt : 1 < d
          · rw [if_pos (by exact_mod_cast hdgt : (1 : Int) < (d : Int)),
              if_pos hdgt]
            rw [show ((d : Int) - 1) = ((d - 1 : Nat) : Int) by omega]
            rw [ih (y * 2 ^ 64 + m * 2 ^ 32 + (d - 1)) (by omega) cbd y m (d - 1)
              le_rfl hy hm (by omega) hvals hkeys (acc + 1)]
            congr 1
            omega
          · by_cases hmgt : 1 < m
            · rw [if_neg (by exact_mod_cast hdgt), if_neg hdgt,
                if_pos (by exact_mod_cast hmgt : (1 : Int) < (m : Int)), if_pos hmgt]
              rw [show ((m : Int) - 1) = ((m - 1 : Nat) : Int) by omega,
                show ((30 : Int)) = ((30 : Nat) : Int) by omega]
              rw [ih (y * 2 ^ 64 + (m - 1) * 2 ^ 32 + 30) (by omega) cbd y (m - 1) 30
                le_rfl hy (by omega) (by omega) hvals hkeys (acc + 1)]
              congr 1
              omega
            · by_cases hyge : 1 ≤ y
              · rw [if_neg (by exact_mod_cast hdgt), if_neg hdgt,
                  if_neg (by exact_mod_cast hmgt), if_neg hmgt, if_pos hyge]
                rw [show ((y : Int) - 1) = ((y - 1 : Nat) : Int) by omega,
                  show ((12 : Int)) = ((12 : Nat) : Int) by omega,
                  show ((30 : Int)) = ((30 : Nat) : Int) by omega]
                rw [ih ((y - 1) * 2 ^ 64 + 12 * 2 ^ 32 + 30) (by omega) cbd (y - 1) 12 30
                  le_rfl (by omega) (by omega) (by omega) hvals hkeys (acc + 1)]
                congr 1
                omega
              · have hyz : y = 0 := by omega
                subst hyz
                rw [if_neg (by exact_mod_cast hdgt), if_neg hdgt,
                  if_neg (by exact_mod_cast hmgt), if_neg hmgt, if_neg hyge]
                have hdash : (fmtDate ((0 : Nat) - 1 : Int) 12 30).head? = some '-' := by decide
                rw [calculate_streakGo_not_contains cbd _ (acc + 1)
                  (mapContains_eq_false_of_head_dash cbd hkeys hdash)]
        · rename_i hnomatch
          exact (hnomatch _ _ _ (parseI32_fmtI32 4 _ hy0 hy1)
            (parseI32_fmtI32 2 _ hm0 hm1) (parseI32_fmtI32 2 _ hd0 hd1)).elim
      · rename_i hnomatch
        rw [splitOnDash_fmtDate hy0 hm0 hd0] at hnomatch
        exact (hnomatch _ _ _ rfl rfl rfl).elim
    · have hc' : mapContains cbd (fmtDate (y : Int) (m : Int) (d : Int)) = false := by
        simpa using hc
      rw [calculate_streakGo_not_contains cbd _ acc hc', streakSpec, hnz, hc']
      simp

/-- `calculate_streak`, on a "today" in `fmtDate` form, computes the
spec-level walk from today's triple. -/
theorem calculate_streak_eq_spec (cbd : List (Str × Nat)) (y m d : Nat)
    (hy : y ≤ 2 ^ 31 - 1) (hm : m ≤ 2 ^ 31 - 1) (hd : d ≤ 2 ^ 31 - 1)
    (hvals : ∀ p ∈ cbd, p.2 ≠ 0) (hkeys : ∀ p ∈ cbd, p.1.head? ≠ some '-') :
    calculate_streak cbd (fmtDate (y : Int) (m : Int) (d : Int)) =
      some (streakSpec cbd y m d) := by
  rw [calculate_streak]
  by_cases hnil : cbd = []
  · subst hnil
    rw [if_pos rfl, streakSpec]
    simp [hasNonzeroEntry, mapGet]
  · rw [if_neg hnil,
      calculate_streakGo_eq_spec (y * 2 ^ 64 + m * 2 ^ 32 + d) cbd y m d le_rfl
        hy hm hd hvals hkeys 0]
    rw [Nat.zero_add]

/-! ## File-system state

The vault is modelled as a record of file contents.  Reads can fail
(`unreadable`); JSON (de)serialization of the metadata file is modelled
structurally, with `corrupt` standing for a file whose JSON fails to parse;
writes and directory creation are modelled as always succeeding. -/

inductive FileState where
  | missing
  | unreadable (err : Str)
  | content (text : Str)
deriving DecidableEq, Repr

inductive MetaFileState where
  | missing
  | unreadable (err : Str)
  | corrupt (err : Str)
  | valid (metadata : TodoMetadata)
deriving DecidableEq, Repr

/-- The vault: the live `todo.txt`, `.bouldy/todo-metadata.json`, and the
month-keyed archive files `.bouldy/archives/done-YYYY-MM.txt`. -/
structure FsState where
  todoFile : FileState
  metaFile : MetaFileState
  archives : List (Str × FileState)
deriving DecidableEq, Repr

/-- Content of the archive file for a month (not present ⇒ missing). -/
def getArchive (s : FsState) (month : Str) : FileState :=
  match s.archives.find? (fun p => p.1 = month) with
  | some p => p.2
  | none => FileState.missing

/-- `fs::write` on the archive file for a month. -/
def setArchive (s : FsState) (month : Str) (text : Str) : FsState :=
  if (s.archives.find? (fun p => p.1 = month)).isSome then
    { s with archives :=
        s.archives.map (fun p => if p.1 = month then (p.1, FileState.content text) else p) }
  else
    { s with archives := s.archives ++ [(month, FileState.content text)] }

/-- `load_todos` (todos.rs lines 257–268): missing file is an empty
collection; a read failure is an error; otherwise parse. -/
def load_todos (s : FsState) : Except Str (List TodoItem) :=
  match s.todoFile with
  | .missing => .ok []
  | .unreadable e => .error ("Failed to read todos: ".toList ++ e)
  | .content text => parse_todos text

/-- `save_todos` (todos.rs lines 270–277). -/
def save_todos (s : FsState) (todos : List TodoItem) : FsState :=
  { s with todoFile := .content (serialize_todos todos) }

/-- `load_metadata` (todos.rs lines 316–328). -/
def load_metadata (s : FsState) : Except Str TodoMetadata :=
  match s.metaFile with
  | .missing => .ok TodoMetadata.default
  | .unreadable e => .error ("Failed to read metadata: ".toList ++ e)
  | .corrupt e => .error ("Failed to parse metadata: ".toList ++ e)
  | .valid metadata => .ok metadata

/-- `save_metadata` (todos.rs lines 330–346). -/
def save_metadata (s : FsState) (metadata : TodoMetadata) : FsState :=
  { s with metaFile := .valid metadata }

/-- `reorder_todo` (todos.rs lines 283–304). -/
def reorder_todo (s : FsState) (old_index new_index : Nat) :
    Except Str Unit × FsState :=
  match load_todos s with
  | .error e => (.error e, s)
  | .ok todos =>
    if h : old_index ≥ todos.length ∨ new_index ≥ todos.length then
      (.error "Invalid index for reordering".toList, s)
    else if old_index = new_index then
      (.ok (), s)
    else
      let todo := todos.get ⟨old_index, Nat.lt_of_not_le (fun hle => h (Or.inl hle))⟩
      let todos := (todos.eraseIdx old_index).insertIdx new_index todo
      (.ok (), save_todos s todos)

/-- `get_current_month` (todos.rs lines 366–369): first seven characters
(`YYYY-MM`) of the current date string. -/
def get_current_month (today : Str) : Str := today.take 7

/-- `archive_completed_todos` (todos.rs lines 409–470), with "today" passed
explicitly in place of the impure `get_current_date()`.  The outer `Option`
models the Rust panic that `calculate_streak` would raise on a date string
with fewer than three `'-'`-separated parts (`none` = panic); every normal
outcome is `some`. -/
def archive_completed_todos (today : Str) (s : FsState) :
    Option (Except Str Nat × FsState) :=
  match load_todos s with
  | .error e => some (.error e, s)
  | .ok todos =>
    match load_metadata s with
    | .error e => some (.error e, s)
    | .ok metadata =>
      let completed_todos := todos.filter (fun t => t.completed)
      if completed_todos = [] then some (.ok 0, s)
      else
        let count := completed_todos.length
        let current_month := get_current_month today
        let stats := metadata.stats
        let stats :=
          { stats with
            total_completed := stats.total_completed + count
            completions_by_day := mapInsertAdd stats.completions_by_day today count
            completions_by_month :=
              mapInsertAdd stats.completions_by_month current_month count }
        match calculate_streak stats.completions_by_day today with
        | none => none
        | some current_streak =>
          let stats :=
            { stats with
              current_streak := current_streak
              longest_streak :=
                if current_streak > stats.longest_streak then current_streak
                else stats.longest_streak }
          let s := save_metadata s { metadata with stats := stats }
          match getArchive s current_month with
          | .unreadable e =>
            some (.error ("Failed to read archive file: ".toList ++ e), s)
          | arch =>
            let existing :=
              match arch with
              | .content c => c
              | _ => []
            let archive_content := existing ++
              (completed_todos.map
                (fun todo => '[' :: today ++ ']' :: ' ' :: todo.title ++ ['\n'])).join
            let s := setArchive s current_month archive_content
            let remaining_todos := todos.filter (fun t => ¬ t.completed)
            let s := save_todos s remaining_todos
            some (.ok count, s)

/-- `load_archived_todos` (todos.rs lines 472–500). -/
def load_archived_todos (s : FsState) (month : Str) :
    Except Str (List ArchivedTodo) :=
  match getArchive s month with
  | .missing => .ok []
  | .unreadable e => .error ("Failed to read archive file: ".toList ++ e)
  | .content text =>
    .ok ((rustLines text).foldl
      (fun acc line =>
        if startsWithChar '[' line then
          match line.findIdx? (fun c => c = ']') with
          | some end_bracket =>
            acc ++ [{ title := rustTrim (line.drop (end_bracket + 1)),
                      completed_date := (line.drop 1).take (end_bracket - 1) }]
          | none => acc
        else acc)
      [])

/-! ## Claims -/

/-- **C2.** Parsing the single line
`"(A) 2024-01-01 Write report +Work @Office due:2024-01-10"` yields exactly
one `TodoItem` with priority `"A"`, created date `"2024-01-01"`, title
`"Write report"`, projects `["Work"]`, contexts `["Office"]`, due date
`"2024-01-10"`, and `completed = false` (its id being 1, the line number). -/
theorem C2_parse_example :
    parse_todos "(A) 2024-01-01 Write report +Work @Office due:2024-01-10".toList =
      .ok [{ id := 1, title := "Write report".toList, completed := false,
             due_date := some "2024-01-10".toList, priority := some "A".toList,
             projects := ["Work".toList], contexts := ["Office".toList],
             created_date := some "2024-01-01".toList }] := by
  rfl

/-- **C1** (code bug). The round-trip law fails on a legally constructed
item: the item built by the app's `create_todo` from title `"Ask (A) team"`
with priority `"A"` and creation date `"2024-01-15"` serializes to
`"(A) 2024-01-15 Ask (A) team\n"`, but reparsing it removes **every**
occurrence of `"(A)"` (the priority stripper `content.replace` of todos.rs
line 95 is not anchored to the start), so the reparsed title is
`"Ask team"`, and the second serialization is not byte-identical to the
first. -/
theorem C1_roundtrip_failure :
    serialize_todos
        [{ id := 1, title := "Ask (A) team".toList, completed := false,
           due_date := none, priority := some "A".toList, projects := [],
           contexts := [], created_date := some "2024-01-15".toList }] =
      "(A) 2024-01-15 Ask (A) team\n".toList ∧
    parse_todos "(A) 2024-01-15 Ask (A) team\n".toList =
      .ok [{ id := 1, title := "Ask team".toList, completed := false,
             due_date := none, priority := some "A".toList, projects := [],
             contexts := [], created_date := some "2024-01-15".toList }] ∧
    serialize_todos
        [{ id := 1, title := "Ask team".toList, completed := false,
           due_date := none, priority := some "A".toList, projects := [],
           contexts := [], created_date := some "2024-01-15".toList }] =
      "(A) 2024-01-15 Ask team\n".toList := by
  refine ⟨rfl, rfl, rfl⟩

/-- **C8.** `load_todos` on a vault whose todo file does not exist returns
`Ok` with the empty collection; when the file exists but reading it fails,
it returns an error (the operation's own failure — `load_todos` touches no
other state). -/
theorem C8_load_todos_error_policy (s : FsState) :
    (s.todoFile = FileState.missing → load_todos s = .ok []) ∧
    (∀ e, s.todoFile = FileState.unreadable e →
      load_todos s = .error ("Failed to read todos: ".toList ++ e)) := by
  constructor
  · intro h
    rw [load_todos, h]
  · intro e h
    rw [load_todos, h]

theorem C8_load_todos_error_policy_witness :
    load_todos ⟨FileState.missing, MetaFileState.missing, []⟩ = .ok [] ∧
    load_todos ⟨FileState.unreadable "boom".toList, MetaFileState.missing, []⟩ =
      .error ("Failed to read todos: ".toList ++ "boom".toList) :=
  ⟨(C8_load_todos_error_policy ⟨FileState.missing, MetaFileState.missing, []⟩).1 rfl,
   (C8_load_todos_error_policy
      ⟨FileState.unreadable "boom".toList, MetaFileState.missing, []⟩).2
      "boom".toList rfl⟩

/-! ### C9: totality of the parser -/

/-- 1-based enumeration of lines, for stating the parser characterization. -/
def enumFromIdx {α : Type} : Nat → List α → List (Nat × α)
  | _, [] => []
  | n, a :: as => (n, a) :: enumFromIdx (n + 1) as

lemma enumFromIdx_mem_snd {α : Type} :
    ∀ (ls : List α) (n : Nat) (p : Nat × α), p ∈ enumFromIdx n ls → p.2 ∈ ls := by
  intro ls
  induction ls with
  | nil => intro n p hp; simp [enumFromIdx] at hp
  | cons a as ih =>
    intro n p hp
    rw [enumFromIdx] at hp
    rcases List.mem_cons.mp hp with h | h
    · subst h; simp
    · exact List.mem_cons_of_mem a (ih (n + 1) p h)

lemma parse_todosGo_eq :
    ∀ (ls : List Str) (n : Nat),
      parse_todosGo n ls =
        ((enumFromIdx (n + 1) ls).filter (fun p => !(rustTrim p.2).isEmpty)).map
          (fun p => parse_todo_line (rustTrim p.2) p.1) := by
  intro ls
  induction ls with
  | nil => intro n; rfl
  | cons l rest ih =>
    intro n
    by_cases h : rustTrim l = []
    · rw [parse_todosGo, if_pos h, ih (n + 1), enumFromIdx]
      rw [List.filter_cons]
      simp [h]
    · rw [parse_todosGo, if_neg h, ih (n + 1), enumFromIdx]
      rw [List.filter_cons]
      simp [h]

lemma rustTrim_eq_nil_of_all_ws {s : Str} (h : ∀ c ∈ s, c.isWhitespace) :
    rustTrim s = [] := by
  rw [rustTrim, trimStart, trimEnd]
  have h1 : s.dropWhile Char.isWhitespace = [] := List.dropWhile_eq_nil_iff.mpr h
  rw [h1]
  rfl

lemma finishLine_mem {cur : Str} {c : Char} (hc : c ∈ finishLine cur) : c ∈ cur := by
  rw [finishLine] at hc
  split at hc
  · exact List.mem_of_mem_tail (List.mem_reverse.mp hc)
  · exact List.mem_reverse.mp hc

lemma linesGo_all_ws :
    ∀ (cs cur : Str), (∀ c ∈ cs, c.isWhitespace) → (∀ c ∈ cur, c.isWhitespace) →
      ∀ l ∈ linesGo cur cs, ∀ c ∈ l, c.isWhitespace := by
  intro cs
  induction cs with
  | nil =>
    intro cur _ hcur l hl c hc
    rw [linesGo] at hl
    rw [List.mem_singleton] at hl
    subst hl
    exact hcur c (finishLine_mem hc)
  | cons a rest ih =>
    intro cur hcs hcur l hl c hc
    have ha : a.isWhitespace := hcs a (by simp)
    have hrest : ∀ x ∈ rest, x.isWhitespace := fun x hx => hcs x (by simp [hx])
    have hacur : ∀ x ∈ a :: cur, x.isWhitespace := by
      intro x hx
      rcases List.mem_cons.mp hx with h | h
      · subst h; exact ha
      · exact hcur x h
    match rest, hrest, hl with
    | [], hrest, hl =>
      have hl' : l ∈ (if a = '\n' then [finishLine cur]
          else [finishLine (a :: cur)]) := hl
      split at hl'
      · rw [List.mem_singleton] at hl'
        subst hl'
        exact hcur c (finishLine_mem hc)
      · rw [List.mem_singleton] at hl'
        subst hl'
        exact hacur c (finishLine_mem hc)
    | b :: rest', hrest, hl =>
      have hl' : l ∈ (if a = '\n' then finishLine cur :: linesGo [] (b :: rest')
          else linesGo (a :: cur) (b :: rest')) := hl
      split at hl'
      · rcases List.mem_cons.mp hl' with h | h
        · subst h
          exact hcur c (finishLine_mem hc)
        · exact ih [] hrest (by simp) l h c hc
      · exact ih (a :: cur) hrest hacur l hl' c hc

lemma rustTrim_nil_all_ws {content : Str} (h : rustTrim content = []) :
    ∀ c ∈ content, c.isWhitespace := by
  rw [rustTrim, trimStart, trimEnd] at h
  have h1 : (content.dropWhile Char.isWhitespace).reverse.dropWhile Char.isWhitespace = [] := by
    rwa [List.reverse_eq_nil_iff] at h
  have h2 : ∀ c ∈ (content.dropWhile Char.isWhitespace).reverse, c.isWhitespace =
      true := List.dropWhile_eq_nil_iff.mp h1
  have h3 : ∀ c ∈ content.dropWhile Char.isWhitespace, c.isWhitespace := by
    intro c hc
    exact h2 c (List.mem_reverse.mpr hc)
  intro c hc
  rw [← List.takeWhile_append_dropWhile (p := Char.isWhitespace) (l := content)] at hc
  rcases List.mem_append.mp hc with h4 | h4
  · exact List.mem_takeWhile_imp h4
  · exact h3 c h4

lemma rustLines_all_blank {content : Str} (h : rustTrim content = []) :
    ∀ l ∈ rustLines content, rustTrim l = [] := by
  have hws : ∀ c ∈ content, c.isWhitespace := rustTrim_nil_all_ws h
  intro l hl
  apply rustTrim_eq_nil_of_all_ws
  intro c hc
  match content, hl with
  | [], hl => simp [rustLines] at hl
  | a :: rest, hl =>
    exact linesGo_all_ws (a :: rest) [] hws (by simp) l hl c hc

/-- **C9.** `parse_todos` is total and skips nothing but blank lines: for
every input it returns `Ok` (never an error), containing exactly one
`TodoItem` per non-blank line in order — each parsed from the trimmed line
by `parse_todo_line`, which never rejects a line — and each item's id is the
line's 1-indexed position counting blank lines. -/
theorem C9_parse_todos_total (content : Str) :
    parse_todos content =
      .ok (((enumFromIdx 1 (rustLines content)).filter
          (fun p => !(rustTrim p.2).isEmpty)).map
        (fun p => parse_todo_line (rustTrim p.2) p.1)) ∧
    (∀ (line : Str) (n : Nat), (parse_todo_line line n).id = n) := by
  constructor
  · rw [parse_todos]
    by_cases h : rustTrim content = []
    · rw [if_pos h]
      have hblank := rustLines_all_blank h
      congr 1
      symm
      rw [List.map_eq_nil, List.filter_eq_nil]
      intro p hp
      have hpblank := hblank p.2 (enumFromIdx_mem_snd _ 1 p hp)
      simp [hpblank]
    · rw [if_neg h, parse_todosGo_eq (rustLines content) 0]
  · intro line n
    rfl

/-! ### C6: serializer token order -/

/-- The claim's per-item line: the tokens in exactly this order — completion
marker `"x"` (iff completed), priority in parentheses, creation date, title,
`'+'`-prefixed projects in original order, `'@'`-prefixed contexts in
original order, `"due:"` plus the due date — joined by single spaces, then a
newline. -/
def serializeLineSpec (todo : TodoItem) : Str :=
  List.intercalate [' ']
    ((if todo.completed then [['x']] else []) ++
     (match todo.priority with
      | some priority => ['(' :: priority ++ [')']]
      | none => []) ++
     (match todo.created_date with
      | some created => [created]
      | none => []) ++
     [todo.title] ++
     todo.projects.map (fun project => '+' :: project) ++
     todo.contexts.map (fun context => '@' :: context) ++
     (match todo.due_date with
      | some due => [['d', 'u', 'e', ':'] ++ due]
      | none => [])) ++ ['\n']

/-- **C6.** `serialize_todos` emits, for every item in order, exactly the
line `serializeLineSpec` describes: its tokens in the fixed order
(completion marker, priority, creation date, title, project tags, context
tags, due tag) separated by single spaces and followed by a newline. -/
theorem C6_serialize_token_order (todos : List TodoItem) :
    serialize_todos todos = List.join (todos.map serializeLineSpec) := by
  rw [serialize_todos]
  have hline : ∀ (acc : Str) (todo : TodoItem),
      acc ++ List.intercalate [' ']
          ((if todo.completed then ([] : List Str) ++ [['x']] else []) ++
            (match todo.priority with
             | some priority => [('(' :: priority ++ [')'])]
             | none => []) ++
            (match todo.created_date with
             | some created => [created]
             | none => []) ++
            [todo.title] ++
            todo.projects.map (fun project => '+' :: project) ++
            todo.contexts.map (fun context => '@' :: context) ++
            (match todo.due_date with
             | some due => [(['d', 'u', 'e', ':'] ++ due)]
             | none => [])) ++ ['\n'] =
        acc ++ serializeLineSpec todo := by
    intro acc todo
    rw [serializeLineSpec, List.append_assoc]
    rcases h : todo.completed <;> simp [h]
  suffices hgen : ∀ (ts : List TodoItem) (acc : Str),
      ts.foldl
        (fun result todo =>
          let parts : List Str := []
          let parts := if todo.completed then parts ++ [['x']] else parts
          let parts :=
            match todo.priority with
            | some priority => parts ++ ['(' :: priority ++ [')']]
            | none => parts
          let parts :=
            match todo.created_date with
            | some created => parts ++ [created]
            | none => parts
          let parts := parts ++ [todo.title]
          let parts := parts ++ todo.projects.map (fun project => '+' :: project)
          let parts := parts ++ todo.contexts.map (fun context => '@' :: context)
          let parts :=
            match todo.due_date with
            | some due => parts ++ [['d', 'u', 'e', ':'] ++ due]
            | none => parts
          result ++ List.intercalate [' '] parts ++ ['\n'])
        acc = acc ++ List.join (ts.map serializeLineSpec) by
    rw [hgen todos []]
    rfl
  intro ts
  induction ts with
  | nil => intro acc; simp
  | cons t ts ih =>
    intro acc
    rw [List.foldl_cons, ih, List.map_cons, List.join]
    rcases ht : t.completed <;>
      rcases hp : t.priority <;>
      rcases hc : t.created_date <;>
      rcases hd : t.due_date <;>
      simp only [serializeLineSpec, ht, hp, hc, hd, if_true, if_false,
        List.nil_append, List.append_assoc, Bool.false_eq_true, if_neg,
        List.append_nil] <;>
      simp [List.append_assoc]

/-! ### C10: reorder_todo -/

lemma insertIdx_perm_cons {α : Type} (a : α) :
    ∀ (n : Nat) (l : List α), n ≤ l.length → List.Perm (l.insertIdx n a) (a :: l) := by
  intro n
  induction n with
  | zero =>
    intro l _
    rw [List.insertIdx_zero]
  | succ n ih =>
    intro l h
    cases l with
    | nil => simp at h
    | cons b t =>
      rw [List.insertIdx_succ_cons]
      exact ((ih t (by simpa using h)).cons b).trans (List.Perm.swap a b t)

lemma moved_perm {l : List TodoItem} {i j : Nat} (hi : i < l.length)
    (hj : j < l.length) :
    List.Perm ((l.eraseIdx i).insertIdx j (l.get ⟨i, hi⟩)) l := by
  have hlen : (l.eraseIdx i).length + 1 = l.length := List.length_eraseIdx_add_one hi
  have h1 : List.Perm l (l[i] :: l.erase l[i]) :=
    List.perm_cons_erase (List.getElem_mem hi)
  have h2 : List.Perm (l.erase l[i]) (l.eraseIdx i) := List.erase_getElem hi
  have hl : List.Perm l (l[i] :: l.eraseIdx i) := h1.trans (h2.cons _)
  have hmoved : List.Perm ((l.eraseIdx i).insertIdx j (l.get ⟨i, hi⟩))
      (l.get ⟨i, hi⟩ :: l.eraseIdx i) :=
    insertIdx_perm_cons _ j (l.eraseIdx i) (by omega)
  exact hmoved.trans hl.symm

/-- **C10.** `reorder_todo` is atomic with respect to invalid input: an
out-of-range index returns an error with the state untouched; equal
in-range indices return `Ok` without rewriting the file; otherwise the saved
sequence is the original with the item at `old_index` removed and reinserted
at `new_index`, a permutation (same multiset) of the original items. -/
theorem C10_reorder_atomic (s : FsState) (old_index new_index : Nat)
    (todos : List TodoItem) (hload : load_todos s = .ok todos) :
    (old_index ≥ todos.length ∨ new_index ≥ todos.length →
      reorder_todo s old_index new_index =
        (.error "Invalid index for reordering".toList, s)) ∧
    (old_index < todos.length → new_index < todos.length →
      old_index = new_index →
      reorder_todo s old_index new_index = (.ok (), s)) ∧
    (∀ h1 : old_index < todos.length, new_index < todos.length →
      old_index ≠ new_index →
      reorder_todo s old_index new_index =
        (.ok (), save_todos s
          ((todos.eraseIdx old_index).insertIdx new_index
            (todos.get ⟨old_index, h1⟩))) ∧
      List.Perm
        ((todos.eraseIdx old_index).insertIdx new_index
          (todos.get ⟨old_index, h1⟩)) todos) := by
  refine ⟨?_, ?_, ?_⟩
  · intro h
    simp only [reorder_todo, hload]
    rw [dif_pos h]
  · intro h1 h2 heq
    simp only [reorder_todo, hload]
    rw [dif_neg (by omega), if_pos heq]
  · intro h1 h2 hne
    refine ⟨?_, moved_perm h1 h2⟩
    simp only [reorder_todo, hload]
    rw [dif_neg (by omega), if_neg hne]

theorem C10_reorder_atomic_witness :
    reorder_todo ⟨.content "A\nB\nC\n".toList, .missing, []⟩ 0 2 =
      (.ok (), save_todos ⟨.content "A\nB\nC\n".toList, .missing, []⟩
        (([({ id := 1, title := ['A'], completed := false, due_date := none,
              priority := none, projects := [], contexts := [],
              created_date := none } : TodoItem),
            { id := 2, title := ['B'], completed := false, due_date := none,
              priority := none, projects := [], contexts := [],
              created_date := none },
            { id := 3, title := ['C'], completed := false, due_date := none,
              priority := none, projects := [], contexts := [],
              created_date := none }].eraseIdx 0).insertIdx 2
          ([({ id := 1, title := ['A'], completed := false, due_date := none,
               priority := none, projects := [], contexts := [],
               created_date := none } : TodoItem),
             { id := 2, title := ['B'], completed := false, due_date := none,
               priority := none, projects := [], contexts := [],
               created_date := none },
             { id := 3, title := ['C'], completed := false, due_date := none,
               priority := none, projects := [], contexts := [],
               created_date := none }].get ⟨0, by decide⟩))) ∧
    (save_todos ⟨.content "A\nB\nC\n".toList, .missing, []⟩
        (([({ id := 1, title := ['A'], completed := false, due_date := none,
              priority := none, projects := [], contexts := [],
              created_date := none } : TodoItem),
            { id := 2, title := ['B'], completed := false, due_date := none,
              priority := none, projects := [], contexts := [],
              created_date := none },
            { id := 3, title := ['C'], completed := false, due_date := none,
              priority := none, projects := [], contexts := [],
              created_date := none }].eraseIdx 0).insertIdx 2
          ([({ id := 1, title := ['A'], completed := false, due_date := none,
               priority := none, projects := [], contexts := [],
               created_date := none } : TodoItem),
             { id := 2, title := ['B'], completed := false, due_date := none,
               priority := none, projects := [], contexts := [],
               created_date := none },
             { id := 3, title := ['C'], completed := false, due_date := none,
               priority := none, projects := [], contexts := [],
               created_date := none }].get ⟨0, by decide⟩))).todoFile =
      .content "B\nC\nA\n".toList := by
  have h := (C10_reorder_atomic ⟨.content "A\nB\nC\n".toList, .missing, []⟩ 0 2
    [{ id := 1, title := ['A'], completed := false, due_date := none,
       priority := none, projects := [], contexts := [], created_date := none },
     { id := 2, title := ['B'], completed := false, due_date := none,
       priority := none, projects := [], contexts := [], created_date := none },
     { id := 3, title := ['C'], completed := false, due_date := none,
       priority := none, projects := [], contexts := [], created_date := none }]
    rfl).2.2 (by decide) (by decide) (by decide)
  exact ⟨h.1, rfl⟩

/-! ### C7: load_archived_todos -/

/-- The claim's per-line reading: a line of the form `[date] title` (date
between the brackets, title the rest trimmed) yields one `ArchivedTodo`; any
other line yields nothing. -/
def archiveLineSpec (line : Str) : Option ArchivedTodo :=
  if startsWithChar '[' line then
    match line.findIdx? (fun c => c = ']') with
    | some end_bracket =>
      some { title := rustTrim (line.drop (end_bracket + 1)),
             completed_date := (line.drop 1).take (end_bracket - 1) }
    | none => none
  else none

lemma foldl_append_opt {α β : Type} (f : α → Option β) :
    ∀ (l : List α) (acc : List β),
      l.foldl (fun acc x => acc ++ (f x).toList) acc = acc ++ l.filterMap f := by
  intro l
  induction l with
  | nil => intro acc; simp
  | cons x xs ih =>
    intro acc
    rw [List.foldl_cons, ih, List.filterMap_cons]
    cases hf : f x <;> simp [List.append_assoc]

/-- **C7.** `load_archived_todos` returns, in file order, one `ArchivedTodo`
per line of the form `[date] title` of the month's archive file (date taken
between the brackets, title from the rest, trimmed), dropping every other
line — in particular any indented subtask line, wherever it occurs; a
missing archive file yields the empty sequence.  (`ArchivedTodo` carries no
subtask field in this implementation, so nothing is ever attached.) -/
theorem C7_load_archived (s : FsState) (month : Str) :
    (getArchive s month = .missing → load_archived_todos s month = .ok []) ∧
    (∀ text, getArchive s month = .content text →
      load_archived_todos s month =
        .ok ((rustLines text).filterMap archiveLineSpec)) := by
  constructor
  · intro h
    simp only [load_archived_todos, h]
  · intro text h
    simp only [load_archived_todos, h]
    have hbody : (fun (acc : List ArchivedTodo) (line : Str) =>
        if startsWithChar '[' line then
          match line.findIdx? (fun c => c = ']') with
          | some end_bracket =>
            acc ++ [{ title := rustTrim (line.drop (end_bracket + 1)),
                      completed_date := (line.drop 1).take (end_bracket - 1) }]
          | none => acc
        else acc) =
        fun acc line => acc ++ (archiveLineSpec line).toList := by
      funext acc line
      rw [archiveLineSpec]
      by_cases hb : startsWithChar '[' line
      · rw [if_pos hb, if_pos hb]
        cases hf : line.findIdx? (fun c => c = ']') <;> simp
      · rw [if_neg hb, if_neg hb]
        simp
    rw [hbody, foldl_append_opt archiveLineSpec (rustLines text) []]
    rfl

theorem C7_load_archived_witness :
    load_archived_todos
        ⟨.missing, .missing,
          [("2024-01".toList,
            .content "  - sub\n[2024-01-03] Task A\nnoise\n[2024-01-04] B\n".toList)]⟩
        "2024-01".toList =
      .ok [{ title := "Task A".toList, completed_date := "2024-01-03".toList },
           { title := "B".toList, completed_date := "2024-01-04".toList }] ∧
    load_archived_todos
        ⟨.missing, .missing,
          [("2024-01".toList,
            .content "  - sub\n[2024-01-03] Task A\nnoise\n[2024-01-04] B\n".toList)]⟩
        "1999-12".toList = .ok [] := by
  constructor
  · rw [(C7_load_archived
      ⟨.missing, .missing,
        [("2024-01".toList,
          .content "  - sub\n[2024-01-03] Task A\nnoise\n[2024-01-04] B\n".toList)]⟩
      "2024-01".toList).2
      "  - sub\n[2024-01-03] Task A\nnoise\n[2024-01-04] B\n".toList rfl]
    rfl
  · exact (C7_load_archived
      ⟨.missing, .missing,
        [("2024-01".toList,
          .content "  - sub\n[2024-01-03] Task A\nnoise\n[2024-01-04] B\n".toList)]⟩
      "1999-12".toList).1 rfl

/-! ### C3: the streak walk -/

/-- **C3.** The streak computation starts at today's date and walks backward
one day at a time while the completions-by-day map has a (non-zero) entry
for that day, stopping at the first missing day and returning the walked
count (`streakSpec`, whose predecessor of day 1 of a month is day 30 of the
previous month — every month treated as 30 days, no leap-year handling); in
particular, when the map does not contain today (e.g. it contains only
yesterday), the computed streak is 0.  Hypotheses: the date components are
in `i32` range; all stored counts are non-zero (they are counts of archived
items, so "has an entry" and "has a non-zero entry" coincide — and the code
tests `contains_key`); no key starts with `'-'` (true of all date keys). -/
theorem C3_streak_walk (cbd : List (Str × Nat)) (y m d : Nat)
    (hy : y ≤ 2 ^ 31 - 1) (hm : m ≤ 2 ^ 31 - 1) (hd : d ≤ 2 ^ 31 - 1)
    (hvals : ∀ p ∈ cbd, p.2 ≠ 0) (hkeys : ∀ p ∈ cbd, p.1.head? ≠ some '-') :
    calculate_streak cbd (fmtDate (y : Int) (m : Int) (d : Int)) =
      some (streakSpec cbd y m d) ∧
    (mapContains cbd (fmtDate (y : Int) (m : Int) (d : Int)) = false →
      calculate_streak cbd (fmtDate (y : Int) (m : Int) (d : Int)) = some 0) := by
  have hmain := calculate_streak_eq_spec cbd y m d hy hm hd hvals hkeys
  refine ⟨hmain, fun habs => ?_⟩
  rw [hmain, streakSpec, hasNonzeroEntry_eq_mapContains cbd hvals, habs]
  simp

theorem C3_streak_walk_witness :
    calculate_streak [("2024-01-04".toList, 1), ("2024-01-05".toList, 2)]
        (fmtDate 2024 1 5) =
      some (streakSpec [("2024-01-04".toList, 1), ("2024-01-05".toList, 2)] 2024 1 5) ∧
    streakSpec [("2024-01-04".toList, 1), ("2024-01-05".toList, 2)] 2024 1 5 = 2 ∧
    calculate_streak [("2024-01-04".toList, 1), ("2024-01-05".toList, 2)]
        (fmtDate 2024 1 6) = some 0 := by
  refine ⟨?_, ?_, ?_⟩
  · exact (C3_streak_walk [("2024-01-04".toList, 1), ("2024-01-05".toList, 2)]
      2024 1 5 (by norm_num) (by norm_num) (by norm_num) (by decide) (by decide)).1
  · rw [streakSpec, if_pos (by decide), if_pos (by norm_num)]
    rw [streakSpec, if_pos (by decide), if_pos (by norm_num)]
    rw [streakSpec, if_neg (by decide)]
  · exact (C3_streak_walk [("2024-01-04".toList, 1), ("2024-01-05".toList, 2)]
      2024 1 6 (by norm_num) (by norm_num) (by norm_num) (by decide) (by decide)).2
      (by decide)

/-! ### C4: archiving with no completed items -/

/-- **C4** (counterexample). A vault whose todo collection contains zero
completed items but whose metadata file is corrupt: `archive_completed_todos`
returns the metadata-parse error, not `Ok 0` — the claim's "returns Ok(0)"
fails (the state is still untouched). -/
theorem C4_archive_empty_counterexample :
    load_todos ⟨.content "A\n".toList, .corrupt "bad json".toList, []⟩ =
      .ok [{ id := 1, title := ['A'], completed := false, due_date := none,
             priority := none, projects := [], contexts := [],
             created_date := none }] ∧
    archive_completed_todos "2024-01-05".toList
        ⟨.content "A\n".toList, .corrupt "bad json".toList, []⟩ =
      some (.error ("Failed to parse metadata: ".toList ++ "bad json".toList),
        ⟨.content "A\n".toList, .corrupt "bad json".toList, []⟩) := by
  exact ⟨rfl, rfl⟩

/-- **C4** (amended). On a vault whose todo collection loads with zero
completed items *and whose metadata file is absent or loads successfully*,
`archive_completed_todos` returns `Ok 0` and performs no writes: the state —
live todo file, metadata file, and every archive file — is returned
unchanged. -/
theorem C4_archive_empty_no_writes (today : Str) (s : FsState)
    (todos : List TodoItem) (md : TodoMetadata)
    (hload : load_todos s = .ok todos)
    (hmeta : load_metadata s = .ok md)
    (hnone : ∀ t ∈ todos, t.completed = false) :
    archive_completed_todos today s = some (.ok 0, s) := by
  have hfilter : todos.filter (fun t => t.completed) = [] := by
    rw [List.filter_eq_nil]
    intro t ht
    simp [hnone t ht]
  simp only [archive_completed_todos, hload, hmeta, hfilter, if_pos]

theorem C4_archive_empty_no_writes_witness :
    archive_completed_todos "2024-01-05".toList
        ⟨.content "A\nB\n".toList, .missing, []⟩ =
      some (.ok 0, ⟨.content "A\nB\n".toList, .missing, []⟩) :=
  C4_archive_empty_no_writes "2024-01-05".toList
    ⟨.content "A\nB\n".toList, .missing, []⟩
    [{ id := 1, title := ['A'], completed := false, due_date := none,
       priority := none, projects := [], contexts := [], created_date := none },
     { id := 2, title := ['B'], completed := false, due_date := none,
       priority := none, projects := [], contexts := [], created_date := none }]
    TodoMetadata.default rfl rfl (by decide)

/-! ### C5: archiving two completed items -/

lemma mapContains_eq_false_of_get_none {cbd : List (Str × Nat)} {k : Str}
    (h : mapGet cbd k = none) : mapContains cbd k = false := by
  rw [mapContains, h]
  rfl

lemma mapInsertAdd_not_contains {cbd : List (Str × Nat)} {k : Str} {v : Nat}
    (h : mapContains cbd k = false) : mapInsertAdd cbd k v = cbd ++ [(k, v)] := by
  rw [mapInsertAdd, if_neg (by simp [h])]

lemma mapGet_append_single_ne {cbd : List (Str × Nat)} {k j : Str} {v : Nat}
    (hne : j ≠ k) : mapGet (cbd ++ [(k, v)]) j = mapGet cbd j := by
  rw [mapGet, mapGet, List.find?_append]
  cases hfind : cbd.find? (fun p => p.1 = j) with
  | some p => simp [hfind]
  | none =>
    have : (([(k, v)] : List (Str × Nat)).find? (fun p => p.1 = j)) = none := by
      simp [List.find?, Ne.symm hne]
    rw [this]
    rfl

lemma mapGet_append_single_self {cbd : List (Str × Nat)} {k : Str} {v : Nat}
    (h : mapGet cbd k = none) : mapGet (cbd ++ [(k, v)]) k = some v := by
  rw [mapGet] at h ⊢
  rw [List.find?_append]
  cases hfind : cbd.find? (fun p => p.1 = k) with
  | some p => rw [hfind] at h; exact absurd h (by simp)
  | none => simp [hfind, List.find?]

lemma hasNonzeroEntry_of_get {cbd : List (Str × Nat)} {k : Str} {v : Nat}
    (h : mapGet cbd k = some v) (hv : v ≠ 0) : hasNonzeroEntry cbd k = true := by
  rw [hasNonzeroEntry, h]
  simp [hv]

lemma hasNonzeroEntry_of_get_none {cbd : List (Str × Nat)} {k : Str}
    (h : mapGet cbd k = none) : hasNonzeroEntry cbd k = false := by
  rw [hasNonzeroEntry, h]

/-- The previous-day string that the streak walk steps to from `(y, m, d)`:
`d - 1`, or day 30 of the previous month, or December 30 of the previous
year (months fixed at 30 days). -/
def prevDateSpec (y m d : Nat) : Str :=
  if 1 < d then fmtDate (y : Int) (m : Int) ((d : Int) - 1)
  else if 1 < m then fmtDate (y : Int) ((m : Int) - 1) 30
  else fmtDate ((y : Int) - 1) 12 30

lemma prevDateSpec_ne (y m d : Nat) (hy1 : 1 ≤ y) (hy : y ≤ 2 ^ 31 - 1)
    (hm : m ≤ 2 ^ 31 - 1) (hd : d ≤ 2 ^ 31 - 1) :
    prevDateSpec y m d ≠ fmtDate (y : Int) (m : Int) (d : Int) := by
  intro heq
  have hT := congrArg extractTriple heq
  rw [extractTriple_fmtDate (by omega) (by omega) (by omega) (by omega) (by omega)
    (by omega)] at hT
  rw [prevDateSpec] at hT
  split_ifs at hT with h1 h2
  · rw [extractTriple_fmtDate (by omega) (by omega) (by omega) (by omega) (by omega)
      (by omega)] at hT
    simp only [Option.some.injEq, Prod.mk.injEq] at hT
    omega
  · rw [extractTriple_fmtDate (by omega) (by omega) (by omega) (by omega) (by omega)
      (by omega)] at hT
    simp only [Option.some.injEq, Prod.mk.injEq] at hT
    omega
  · rw [extractTriple_fmtDate (by omega) (by omega) (by omega) (by omega) (by omega)
      (by omega)] at hT
    simp only [Option.some.injEq, Prod.mk.injEq] at hT
    omega

lemma streakSpec_one (cbd : List (Str × Nat)) (y m d : Nat)
    (htoday : hasNonzeroEntry cbd (fmtDate (y : Int) (m : Int) (d : Int)) = true)
    (hprev : hasNonzeroEntry cbd (prevDateSpec y m d) = false)
    (h1y : 1 ≤ y) : streakSpec cbd y m d = 1 := by
  rw [prevDateSpec] at hprev
  rw [streakSpec, if_pos htoday]
  by_cases hd1 : 1 < d
  · rw [if_pos hd1] at hprev
    rw [if_pos hd1]
    rw [show ((d : Int) - 1) = ((d - 1 : Nat) : Int) by omega] at hprev
    rw [streakSpec, hprev]
    simp
  · rw [if_neg hd1] at hprev
    rw [if_neg hd1]
    by_cases hm1 : 1 < m
    · rw [if_pos hm1] at hprev
      rw [if_pos hm1]
      rw [show ((m : Int) - 1) = ((m - 1 : Nat) : Int) by omega,
        show ((30 : Int)) = ((30 : Nat) : Int) by omega] at hprev
      rw [streakSpec, hprev]
      simp
    · rw [if_neg hm1] at hprev
      rw [if_neg hm1, if_pos h1y]
      rw [show ((y : Int) - 1) = ((y - 1 : Nat) : Int) by omega,
        show ((12 : Int)) = ((12 : Nat) : Int) by omega,
        show ((30 : Int)) = ((30 : Nat) : Int) by omega] at hprev
      rw [streakSpec, hprev]
      simp

lemma getArchive_save_metadata (s : FsState) (md : TodoMetadata) (month : Str) :
    getArchive (save_metadata s md) month = getArchive s month := rfl

/-- Symbolic unfolding of the success path of `archive_completed_todos`:
given successful loads, a non-empty completed set, the streak value for the
updated day map, and a readable (or missing) archive file, the result is
`Ok count` together with the state after the metadata write, the archive
append and the live-file rewrite. -/
lemma archive_completed_todos_characterization
    (today : Str) (s : FsState) (todos : List TodoItem) (md : TodoMetadata)
    (cs : Nat) (existing : Str)
    (hload : load_todos s = .ok todos)
    (hmeta : load_metadata s = .ok md)
    (hne : todos.filter (fun t => t.completed) ≠ [])
    (hstreak : calculate_streak
      (mapInsertAdd md.stats.completions_by_day today
        (todos.filter (fun t => t.completed)).length) today = some cs)
    (harch : getArchive s (get_current_month today) = .content existing ∨
             (getArchive s (get_current_month today) = .missing ∧ existing = [])) :
    archive_completed_todos today s =
      some (.ok (todos.filter (fun t => t.completed)).length,
        save_todos
          (setArchive
            (save_metadata s
              { md with stats :=
                { md.stats with
                  total_completed := md.stats.total_completed +
                    (todos.filter (fun t => t.completed)).length
                  current_streak := cs
                  longest_streak :=
                    if cs > md.stats.longest_streak then cs else md.stats.longest_streak
                  completions_by_day := mapInsertAdd md.stats.completions_by_day today
                    (todos.filter (fun t => t.completed)).length
                  completions_by_month := mapInsertAdd md.stats.completions_by_month
                    (get_current_month today)
                    (todos.filter (fun t => t.completed)).length } })
            (get_current_month today)
            (existing ++ ((todos.filter (fun t => t.completed)).map
              (fun todo => '[' :: today ++ ']' :: ' ' :: todo.title ++ ['\n'])).join))
          (todos.filter (fun t => ¬ t.completed))) := by
  simp only [archive_completed_todos, hload, hmeta, if_neg hne, hstreak,
    getArchive_save_metadata]
  rcases harch with hc | ⟨hmiss, hex⟩
  · rw [hc]
  · rw [hmiss, hex]

/-- **C5** (counterexample). Archiving two completed items on a day with no
prior completions (today `"2024-01-05"` absent from completions-by-day) does
*not* always set `current_streak` to 1: when yesterday (`"2024-01-04"`) has
an entry, the walk continues through it and the streak becomes 2.  The
returned count (2), the `+2` on `total_completed` and
`completions_by_day[today] = 2` all hold, but the claimed streak of 1 is
wrong at this input. -/
theorem C5_archive_two_counterexample :
    mapGet [("2024-01-04".toList, 1)] "2024-01-05".toList = none ∧
    archive_completed_todos "2024-01-05".toList
        ⟨.content "x A\nx B\n".toList,
         .valid ⟨5, ⟨1, 1, 1, [("2024-01".toList, 1)], [("2024-01-04".toList, 1)]⟩⟩, []⟩ =
      some (.ok 2,
        ⟨.content [],
         .valid ⟨5, ⟨3, 2, 2, [("2024-01".toList, 3)],
           [("2024-01-04".toList, 1), ("2024-01-05".toList, 2)]⟩⟩,
         [("2024-01".toList, .content "[2024-01-05] A\n[2024-01-05] B\n".toList)]⟩) := by
  refine ⟨rfl, ?_⟩
  have h2 : streakSpec [("2024-01-04".toList, 1), ("2024-01-05".toList, 2)] 2024 1 5 = 2 := by
    rw [streakSpec, if_pos (by decide), if_pos (by norm_num)]
    rw [streakSpec, if_pos (by decide), if_pos (by norm_num)]
    rw [streakSpec, if_neg (by decide)]
  have h1 := calculate_streak_eq_spec
    [("2024-01-04".toList, 1), ("2024-01-05".toList, 2)] 2024 1 5
    (by norm_num) (by norm_num) (by norm_num) (by decide) (by decide)
  rw [h2] at h1
  have hstreak : calculate_streak
      [("2024-01-04".toList, 1), ("2024-01-05".toList, 2)] "2024-01-05".toList =
      some 2 := h1
  rw [archive_completed_todos_characterization "2024-01-05".toList
    ⟨.content "x A\nx B\n".toList,
     .valid ⟨5, ⟨1, 1, 1, [("2024-01".toList, 1)], [("2024-01-04".toList, 1)]⟩⟩, []⟩
    [{ id := 1, title := ['A'], completed := true, due_date := none,
       priority := none, projects := [], contexts := [], created_date := none },
     { id := 2, title := ['B'], completed := true, due_date := none,
       priority := none, projects := [], contexts := [], created_date := none }]
    ⟨5, ⟨1, 1, 1, [("2024-01".toList, 1)], [("2024-01-04".toList, 1)]⟩⟩
    2 [] rfl rfl (by decide) hstreak (Or.inr ⟨rfl, rfl⟩)]
  rfl

/-- **C5** (amended). Archiving exactly two completed items on a day with no
prior completions — *and whose predecessor day (by the 30-day-month rule) is
also absent from completions-by-day* — returns 2, increments
`total_completed` by 2, sets `completions_by_day[today]` to 2, and sets
`current_streak` to 1; provided the metadata loads, its stored day counts
are non-zero date-keyed entries, and the month's archive file is readable or
missing. -/
theorem C5_archive_two_completed (s : FsState) (todos : List TodoItem)
    (md : TodoMetadata) (y m d : Nat) (existing : Str)
    (hy1 : 1 ≤ y) (hy : y ≤ 2 ^ 31 - 1) (hm : m ≤ 2 ^ 31 - 1) (hd : d ≤ 2 ^ 31 - 1)
    (hload : load_todos s = .ok todos)
    (hmeta : load_metadata s = .ok md)
    (hcount : (todos.filter (fun t => t.completed)).length = 2)
    (htoday : mapGet md.stats.completions_by_day
      (fmtDate (y : Int) (m : Int) (d : Int)) = none)
    (hprev : mapGet md.stats.completions_by_day (prevDateSpec y m d) = none)
    (hvals : ∀ p ∈ md.stats.completions_by_day, p.2 ≠ 0)
    (hkeys : ∀ p ∈ md.stats.completions_by_day, p.1.head? ≠ some '-')
    (harch : getArchive s (get_current_month (fmtDate (y : Int) (m : Int) (d : Int))) =
        .content existing ∨
      (getArchive s (get_current_month (fmtDate (y : Int) (m : Int) (d : Int))) =
        .missing ∧ existing = [])) :
    archive_completed_todos (fmtDate (y : Int) (m : Int) (d : Int)) s =
      some (.ok 2,
        save_todos
          (setArchive
            (save_metadata s
              { md with stats :=
                { md.stats with
                  total_completed := md.stats.total_completed + 2
                  current_streak := 1
                  longest_streak :=
                    if 1 > md.stats.longest_streak then 1 else md.stats.longest_streak
                  completions_by_day := mapInsertAdd md.stats.completions_by_day
                    (fmtDate (y : Int) (m : Int) (d : Int)) 2
                  completions_by_month := mapInsertAdd md.stats.completions_by_month
                    (get_current_month (fmtDate (y : Int) (m : Int) (d : Int))) 2 } })
            (get_current_month (fmtDate (y : Int) (m : Int) (d : Int)))
            (existing ++ ((todos.filter (fun t => t.completed)).map
              (fun todo => '[' :: fmtDate (y : Int) (m : Int) (d : Int) ++
                ']' :: ' ' :: todo.title ++ ['\n'])).join))
          (todos.filter (fun t => ¬ t.completed))) ∧
    mapGet (mapInsertAdd md.stats.completions_by_day
        (fmtDate (y : Int) (m : Int) (d : Int)) 2)
      (fmtDate (y : Int) (m : Int) (d : Int)) = some 2 := by
  have hins : mapInsertAdd md.stats.completions_by_day
      (fmtDate (y : Int) (m : Int) (d : Int)) 2 =
      md.stats.completions_by_day ++ [(fmtDate (y : Int) (m : Int) (d : Int), 2)] :=
    mapInsertAdd_not_contains (mapContains_eq_false_of_get_none htoday)
  have hget2 : mapGet (mapInsertAdd md.stats.completions_by_day
      (fmtDate (y : Int) (m : Int) (d : Int)) 2)
      (fmtDate (y : Int) (m : Int) (d : Int)) = some 2 := by
    rw [hins]
    exact mapGet_append_single_self htoday
  have hvals' : ∀ p ∈ md.stats.completions_by_day ++
      [(fmtDate (y : Int) (m : Int) (d : Int), 2)], p.2 ≠ 0 := by
    intro p hp
    rcases List.mem_append.mp hp with h | h
    · exact hvals p h
    · rw [List.mem_singleton] at h
      subst h
      norm_num
  have hkeys' : ∀ p ∈ md.stats.completions_by_day ++
      [(fmtDate (y : Int) (m : Int) (d : Int), 2)], p.1.head? ≠ some '-' := by
    intro p hp
    rcases List.mem_append.mp hp with h | h
    · exact hkeys p h
    · rw [List.mem_singleton] at h
      subst h
      exact fmtDate_head_no_dash (Int.ofNat_nonneg y)
  have hspec1 : streakSpec (md.stats.completions_by_day ++
      [(fmtDate (y : Int) (m : Int) (d : Int), 2)]) y m d = 1 := by
    apply streakSpec_one _ y m d ?_ ?_ hy1
    · exact hasNonzeroEntry_of_get (mapGet_append_single_self htoday) (by norm_num)
    · apply hasNonzeroEntry_of_get_none
      rw [mapGet_append_single_ne (prevDateSpec_ne y m d hy1 hy hm hd)]
      exact hprev
  have hstreak1 : calculate_streak
      (mapInsertAdd md.stats.completions_by_day
        (fmtDate (y : Int) (m : Int) (d : Int)) 2)
      (fmtDate (y : Int) (m : Int) (d : Int)) = some 1 := by
    rw [hins, calculate_streak_eq_spec _ y m d hy hm hd hvals' hkeys', hspec1]
  have hne : todos.filter (fun t => t.completed) ≠ [] := by
    intro h0
    rw [h0] at hcount
    simp at hcount
  refine ⟨?_, hget2⟩
  rw [archive_completed_todos_characterization
    (fmtDate (y : Int) (m : Int) (d : Int)) s todos md 1 existing hload hmeta hne
    (by rw [hcount]; exact hstreak1) harch, hcount]

theorem C5_archive_two_completed_witness :
    fmtDate ((2024 : Nat) : Int) ((1 : Nat) : Int) ((5 : Nat) : Int) =
      "2024-01-05".toList ∧
    archive_completed_todos (fmtDate ((2024 : Nat) : Int) ((1 : Nat) : Int)
        ((5 : Nat) : Int)) ⟨.content "x A\nx B\n".toList, .missing, []⟩ =
      some (.ok 2,
        ⟨.content [],
         .valid ⟨5, ⟨2, 1, 1, [("2024-01".toList, 2)], [("2024-01-05".toList, 2)]⟩⟩,
         [("2024-01".toList, .content "[2024-01-05] A\n[2024-01-05] B\n".toList)]⟩) := by
  refine ⟨by decide, ?_⟩
  have h := (C5_archive_two_completed ⟨.content "x A\nx B\n".toList, .missing, []⟩
    [{ id := 1, title := ['A'], completed := true, due_date := none,
       priority := none, projects := [], contexts := [], created_date := none },
     { id := 2, title := ['B'], completed := true, due_date := none,
       priority := none, projects := [], contexts := [], created_date := none }]
    TodoMetadata.default 2024 1 5 []
    (by norm_num) (by norm_num) (by norm_num) (by norm_num)
    rfl rfl (by decide) rfl rfl (by decide) (by decide) (Or.inr ⟨rfl, rfl⟩)).1
  rw [h]
  rfl

end Bouldy
